import Mathlib

/-!
A shallow embedding of `salt/modules/win_snmp.py` (SNMP service settings
management on Windows) and proofs about it.

The Windows registry is modelled by an explicit `RegState`; every registry
mutation (`reg.set_value` / `reg.delete_value`) issued by an operation is also
recorded in an operation trace (`List RegOp`) so that "no write is issued"
claims can be stated.  Python exceptions (`SaltInvocationError`,
`CommandExecutionError`) are modelled by an error component `SnmpErr`; an
operation that raises returns `.error e` together with the registry state and
trace at the moment of the raise.

Python's built-in `sorted` is modelled by a stable insertion sort (`sortBy`)
over an explicit boolean comparison; Python string ordering is lexicographic
over code points (`strLe`).  Python `set(...)` followed by `sorted` keeps the
distinct elements (`pyDistinct`).  Python `dict` is modelled by an
insertion-ordered association list with key-update-in-place (`dictInsert`) and
order-insensitive equality (`dictEqB`), matching `dict.__eq__`.  Comparison of
Python values of different runtime types (`str` vs `int`) is modelled by
`pyEq` on the sum type `PyVal`: values of different types are never equal.
-/

/-- Lexicographic comparison of character lists by code point, as Python
compares strings. -/
def charListLe : List Char → List Char → Bool
  | [], _ => true
  | _ :: _, [] => false
  | a :: as, b :: bs =>
    if a.val < b.val then true
    else if b.val < a.val then false
    else charListLe as bs

/-- Python string `<=`: lexicographic over code points. -/
def strLe (a b : String) : Bool := charListLe a.data b.data

/-- Insert `x` into a `le`-sorted list, before the first strictly greater
element (stable). -/
def insertLe {α : Type} (le : α → α → Bool) (x : α) : List α → List α
  | [] => [x]
  | y :: ys => if le x y then x :: y :: ys else y :: insertLe le x ys

/-- Stable sort by the total boolean preorder `le`; models Python `sorted`. -/
def sortBy {α : Type} (le : α → α → Bool) : List α → List α
  | [] => []
  | x :: xs => insertLe le x (sortBy le xs)

/-- The distinct elements of a list (Python `set(...)` membership); the order
is irrelevant because every use is followed by a sort. -/
def pyDistinct (l : List String) : List String :=
  l.foldl (fun acc x => if acc.contains x then acc else acc ++ [x]) []

/-- Python `set(a) == set(b)` for lists of strings. -/
def setEqB (a b : List String) : Bool :=
  (a.all fun x => b.contains x) && (b.all fun x => a.contains x)

/-- A Python runtime value appearing in the community code: a string or an
integer. -/
inductive PyVal : Type
  | pyStr (s : String)
  | pyInt (n : Int)
deriving DecidableEq

/-- Python `==` between runtime values: values of different types are never
equal (`"Read Only" == 4` is `False` in Python). -/
def pyEq : PyVal → PyVal → Bool
  | .pyStr a, .pyStr b => a == b
  | .pyInt a, .pyInt b => a == b
  | _, _ => false

/-- Python dict assignment `d[k] = v` on an insertion-ordered association
list: update in place when the key exists, append otherwise. -/
def dictInsert (d : List (String × String)) (k v : String) : List (String × String) :=
  if d.any (fun p => p.1 == k) then
    d.map (fun p => if p.1 == k then (k, v) else p)
  else d ++ [(k, v)]

/-- Python dict equality: same keys with the same values, order-insensitive
(association lists with distinct keys). -/
def dictEqB (a b : List (String × String)) : Bool :=
  (a.all fun p => b.lookup p.1 == some p.2) && (b.all fun p => a.lookup p.1 == some p.2)

/-- Python `k in d` for an association list. -/
def containsKey {β : Type} (d : List (String × β)) (k : String) : Bool :=
  d.any (fun p => p.1 == k)

/-! ## Module constants (win_snmp.py lines 11-34) -/

def SNMP_KEY : String := "SYSTEM\\CurrentControlSet\\Services\\SNMP\\Parameters"

def AGENT_KEY : String := SNMP_KEY ++ "\\RFC1156Agent"

def COMMUNITIES_KEY : String := SNMP_KEY ++ "\\ValidCommunities"

def SNMP_GPO_KEY : String := "SOFTWARE\\Policies\\SNMP\\Parameters"

def COMMUNITIES_GPO_KEY : String := SNMP_GPO_KEY ++ "\\ValidCommunities"

/-- `_PERMISSION_TYPES` (insertion-ordered dict, name to value). -/
def PERMISSION_TYPES : List (String × Int) :=
  [("None", 1), ("Notify", 2), ("Read Only", 4), ("Read Write", 8), ("Read Create", 16)]

/-- `_SERVICE_TYPES` (insertion-ordered dict, name to value). -/
def SERVICE_TYPES : List (String × Int) :=
  [("None", 0), ("Physical", 1), ("Datalink and subnetwork", 2), ("Internet", 4),
    ("End-to-end", 8), ("Applications", 64)]

/-! ## Registry model -/

/-- The stored `EnableAuthenticationTraps` value as seen through
`reg.read_value`: the `"(value not set)"` sentinel, a null `vdata`, or an
integer. -/
inductive AuthVal : Type
  | notSetSentinel
  | nullData
  | num (n : Int)
deriving DecidableEq

/-- The registry slots the module touches.  `sysContact` and `sysLocation`
hold raw string data; `sysServices` holds an integer bitmask; `localComms` is
the value list of the local `ValidCommunities` key (name, permission integer);
`gpoComms` is the value list of the GPO `ValidCommunities` key (numbered name,
community-name data), where `none` stands for a malformed entry that
enumeration skips; `gpoExists` is `reg.key_exists` on the GPO key. -/
structure RegState : Type where
  sysContact : String
  sysLocation : String
  sysServices : Int
  enableAuthTraps : AuthVal
  localComms : List (String × Int)
  gpoExists : Bool
  gpoComms : List (Option (String × String))
deriving DecidableEq

/-- A registry mutation issued through `reg.set_value` / `reg.delete_value`. -/
inductive RegOp : Type
  | setStr (key vname data : String)
  | setDword (key vname : String) (data : Int)
  | deleteValue (key vname : String)
deriving DecidableEq

/-- The exceptions the module raises.  `invalidService` / `invalidPermission`
model `SaltInvocationError` with the offending value and the enumerated valid
choices that the message interpolates; `gpoManaged` models
`CommandExecutionError` with its message. -/
inductive SnmpErr : Type
  | invalidService (bad : String) (validChoices : List String)
  | invalidPermission (bad : String) (validChoices : List String)
  | gpoManaged (message : String)
deriving DecidableEq

instance {ε α : Type} [DecidableEq ε] [DecidableEq α] : DecidableEq (Except ε α) := fun x y =>
  match x, y with
  | .ok a, .ok b => decidable_of_iff (a = b) (by simp)
  | .error a, .error b => decidable_of_iff (a = b) (by simp)
  | .ok _, .error _ => isFalse (fun h => by cases h)
  | .error _, .ok _ => isFalse (fun h => by cases h)

/-- `reg.set_value` with a `REG_DWORD` on a value list: update in place when
the value name exists, create it otherwise. -/
def regSetDword (l : List (String × Int)) (name : String) (v : Int) : List (String × Int) :=
  if l.any (fun p => p.1 == name) then
    l.map (fun p => if p.1 == name then (name, v) else p)
  else l ++ [(name, v)]

/-- `reg.delete_value` on a value list. -/
def regDeleteValue (l : List (String × Int)) (name : String) : List (String × Int) :=
  l.filter (fun p => p.1 != name)

/-! ## get_agent_service_types / get_permission_types (lines 55-84) -/

/-- `list(_SERVICE_TYPES)`: the service names in declared order. -/
def get_agent_service_types : List String := SERVICE_TYPES.map Prod.fst

/-- `list(_PERMISSION_TYPES)`: the permission names in declared order. -/
def get_permission_types : List String := PERMISSION_TYPES.map Prod.fst

/-! ## get_agent_settings (lines 87-132) -/

/-- `sorted(_SERVICE_TYPES.items(), key=lambda x: (-x[1], x[0]))`: descending
by bit value, ties ascending by name. -/
def sortedServiceTypes : List (String × Int) :=
  sortBy (fun a b => b.2 < a.2 || (a.2 == b.2 && strLe a.1 b.1)) SERVICE_TYPES

/-- The greedy subtraction loop of `get_agent_settings` (lines 121-129): for
each `(service, bitmask)` in order, while the current bitmask is positive,
accept the service when subtracting its bit value leaves the remainder
non-negative. -/
def decompLoop : List (String × Int) → Int → List String
  | [], _ => []
  | (service, bitmask) :: rest, cur =>
    if cur > 0 then
      let remaining := cur - bitmask
      if remaining ≥ 0 then service :: decompLoop rest remaining
      else decompLoop rest cur
    else []

/-- The `services` component of `get_agent_settings`: bitmask `0` yields the
last sorted entry's name (`sorted_types[-1][0]`, i.e. `"None"`), otherwise the
greedy loop; the result is sorted by name (line 131). -/
def decomposeServices (bitmask : Int) : List String :=
  let services :=
    if bitmask == 0 then [(sortedServiceTypes.getLastD ("", 0)).1]
    else decompLoop sortedServiceTypes bitmask
  sortBy strLe services

/-- The dictionary `get_agent_settings` returns: raw `sysContact` and
`sysLocation` strings and the decoded service-name list. -/
structure AgentRead : Type where
  contact : String
  location : String
  services : List String
deriving DecidableEq

/-- `get_agent_settings` (lines 87-132). -/
def get_agent_settings (st : RegState) : AgentRead :=
  { contact := st.sysContact
    location := st.sysLocation
    services := decomposeServices st.sysServices }

/-! ## set_agent_settings (lines 135-216) -/

/-- The `settings` dict built by `set_agent_settings` (line 170): each entry
is the raw argument and may be `None`. -/
structure AgentSettings : Type where
  contact : Option String
  location : Option String
  services : Option (List String)
deriving DecidableEq

/-- A current/new reading compared against a `settings` dict (Python compares
the dicts entrywise; a `None` entry never equals a string or list entry). -/
def AgentRead.toSettings (r : AgentRead) : AgentSettings :=
  { contact := some r.contact, location := some r.location, services := some r.services }

/-- `sorted(set(services))` (line 160). -/
def sortedDistinct (l : List String) : List String := sortBy strLe (pyDistinct l)

/-- `sum(_SERVICE_TYPES[service] for service in services)` (line 194). -/
def servicesBitmask (services : List String) : Int :=
  (services.map (fun s => (SERVICE_TYPES.lookup s).getD 0)).sum

/-- The verification loop of `set_agent_settings` (lines 204-209): the
requested fields whose value differs from the re-read state. -/
def failedAgentFields (settings : AgentSettings) (newSettings : AgentRead) : List String :=
  (match settings.contact with
    | some c => if c ≠ newSettings.contact then ["contact"] else []
    | none => []) ++
  (match settings.location with
    | some v => if v ≠ newSettings.location then ["location"] else []
    | none => []) ++
  (match settings.services with
    | some l => if l ≠ newSettings.services then ["services"] else []
    | none => [])

/-- The service-name validation of `set_agent_settings` (lines 157-168):
deduplicate and sort, then raise for the first name outside `_SERVICE_TYPES`. -/
def validateServices : Option (List String) → Except SnmpErr (Option (List String))
  | none => .ok none
  | some l =>
    let l := sortedDistinct l
    match l.find? (fun service => (SERVICE_TYPES.lookup service).isNone) with
    | some bad => .error (.invalidService bad get_agent_service_types)
    | none => .ok (some l)

/-- Lines 178-182: write `sysContact` when provided and different from the
current reading. -/
def applyContact (st : RegState) (contact : Option String) (current : AgentRead) :
    RegState × List RegOp :=
  match contact with
  | some c =>
    if c ≠ current.contact then
      ({ st with sysContact := c }, [RegOp.setStr AGENT_KEY "sysContact" c])
    else (st, [])
  | none => (st, [])

/-- Lines 184-188: write `sysLocation` when provided and different from the
current reading. -/
def applyLocation (st : RegState) (location : Option String) (current : AgentRead) :
    RegState × List RegOp :=
  match location with
  | some v =>
    if v ≠ current.location then
      ({ st with sysLocation := v }, [RegOp.setStr AGENT_KEY "sysLocation" v])
    else (st, [])
  | none => (st, [])

/-- Lines 190-200: write `sysServices` when provided and different, as a set,
from the current service list, encoding the selection as the summed bit
values. -/
def applyServices (st : RegState) (services : Option (List String)) (current : AgentRead) :
    RegState × List RegOp :=
  match services with
  | some l =>
    if !setEqB l current.services then
      let vdata := servicesBitmask l
      ({ st with sysServices := vdata }, [RegOp.setDword AGENT_KEY "sysServices" vdata])
    else (st, [])
  | none => (st, [])

/-- `set_agent_settings` (lines 135-216): validate the service names, short
circuit when the requested dict equals the current one, write only the
provided fields that differ, then re-read and report whether every requested
field reached its target. -/
def set_agent_settings (st : RegState) (contact location : Option String)
    (services0 : Option (List String)) : Except SnmpErr Bool × RegState × List RegOp :=
  match validateServices services0 with
  | .error e => (.error e, st, [])
  | .ok services =>
    let settings : AgentSettings := ⟨contact, location, services⟩
    let current := get_agent_settings st
    if settings = current.toSettings then (.ok true, st, [])
    else
      let s1 := applyContact st contact current
      let s2 := applyLocation s1.1 location current
      let s3 := applyServices s2.1 services current
      let newSettings := get_agent_settings s3.1
      let failed := failedAgentFields settings newSettings
      (.ok failed.isEmpty, s3.1, s1.2 ++ s2.2 ++ s3.2)

/-! ## get_auth_traps_enabled / set_auth_traps_enabled (lines 219-271) -/

/-- `get_auth_traps_enabled` (lines 219-236): the `"(value not set)"`
sentinel reads as `False`; otherwise `bool(vdata or 0)`. -/
def get_auth_traps_enabled (st : RegState) : Bool :=
  match st.enableAuthTraps with
  | .notSetSentinel => false
  | .nullData => false
  | .num n => n != 0

/-- `set_auth_traps_enabled` (lines 239-271): no-op when the current status
already matches, otherwise write `int(status)` and report whether the re-read
status matches the request. -/
def set_auth_traps_enabled (st : RegState) (status : Bool) : Bool × RegState × List RegOp :=
  let current_status := get_auth_traps_enabled st
  if status == current_status then (true, st, [])
  else
    let vdata : Int := if status then 1 else 0
    let st1 := { st with enableAuthTraps := .num vdata }
    let new_status := get_auth_traps_enabled st1
    (status == new_status, st1, [RegOp.setDword SNMP_KEY "EnableAuthenticationTraps" vdata])

/-! ## get_community_names (lines 274-367) -/

/-- The reverse-lookup loop of `get_community_names` (lines 358-362): the
first permission name, in declared order, whose value equals `vdata`, or `""`
when none matches. -/
def permissionName (vdata : Int) : String :=
  match PERMISSION_TYPES.find? (fun p => vdata == p.2) with
  | some p => p.1
  | none => ""

/-- One step of the GPO enumeration loop (lines 323-330): skip malformed
entries, otherwise record the entry's data as managed by GPO. -/
def gpoInsertEntry (r : List (String × String)) (entry : Option (String × String)) :
    List (String × String) :=
  match entry with
  | none => r
  | some (_, vdata) => dictInsert r vdata "Managed by GPO"

/-- One step of the local enumeration loop (lines 351-363): record the
entry's name with the permission name decoded from its integer data. -/
def localInsertEntry (r : List (String × String)) (p : String × Int) :
    List (String × String) :=
  dictInsert r p.1 (permissionName p.2)

/-- `get_community_names` (lines 274-367): when the GPO key exists, map each
well-formed enumerated entry's data to `"Managed by GPO"`; when that produced
nothing (GPO key absent, or no well-formed entry), read the local table,
translating each stored integer back to a permission name. -/
def get_community_names (st : RegState) : List (String × String) :=
  let ret : List (String × String) := []
  let ret := if st.gpoExists then st.gpoComms.foldl gpoInsertEntry ret else ret
  if ret.isEmpty then st.localComms.foldl localInsertEntry ret
  else ret

/-! ## set_community_names (lines 370-463) -/

/-- The normalisation/validation loop of `set_community_names` (lines
411-421): a falsy permission becomes `"None"`; an unrecognised permission
raises; otherwise collect the normalised dict and the integer `values` dict. -/
def normalizeValidate :
    List (String × String) → Except SnmpErr (List (String × String) × List (String × Int))
  | [] => .ok ([], [])
  | (vname, perm) :: rest =>
    let perm := if perm == "" then "None" else perm
    match PERMISSION_TYPES.lookup perm with
    | none => .error (.invalidPermission perm get_permission_types)
    | some vdata =>
      match normalizeValidate rest with
      | .error e => .error e
      | .ok (comms, values) => .ok ((vname, perm) :: comms, (vname, vdata) :: values)

/-- The first reconciliation loop of `set_community_names` (lines 424-437):
for each current community, write the requested integer value when the Python
comparison `current_communities[name] != values[name]` — a `str` against an
`int` — holds, and delete communities that were not requested. -/
def updateExisting (values : List (String × Int)) :
    List (String × String) → List (String × Int) → List (String × Int) × List RegOp
  | [], l => (l, [])
  | (current_vname, current_perm) :: rest, l =>
    match values.lookup current_vname with
    | some vdata =>
      if !pyEq (.pyStr current_perm) (.pyInt vdata) then
        let u := updateExisting values rest (regSetDword l current_vname vdata)
        (u.1, RegOp.setDword COMMUNITIES_KEY current_vname vdata :: u.2)
      else updateExisting values rest l
    | none =>
      let u := updateExisting values rest (regDeleteValue l current_vname)
      (u.1, RegOp.deleteValue COMMUNITIES_KEY current_vname :: u.2)

/-- The second reconciliation loop of `set_community_names` (lines 440-444):
create every requested community that is not in the current table. -/
def createNew (current : List (String × String)) :
    List (String × Int) → List (String × Int) → List (String × Int) × List RegOp
  | [], l => (l, [])
  | (vname, vdata) :: rest, l =>
    if containsKey current vname then createNew current rest l
    else
      let c := createNew current rest (regSetDword l vname vdata)
      (c.1, RegOp.setDword COMMUNITIES_KEY vname vdata :: c.2)

/-- The verification loops of `set_community_names` (lines 448-457): every
re-read community must have been requested, and every requested community must
re-read with the requested permission (a requested name missing from the
re-read — a `KeyError` in the source — counts as failed). -/
def failedCommunities (communities newCommunities : List (String × String)) : Bool :=
  (newCommunities.any fun p => !containsKey communities p.1) ||
  (communities.any fun p =>
    match newCommunities.lookup p.1 with
    | some newPerm => p.2 != newPerm
    | none => true)

/-- `set_community_names` (lines 370-463): raise when the GPO community key
exists; short-circuit when the requested dict equals the current one;
normalise and validate the permissions; reconcile the local table; re-read and
report whether the table now matches the request. -/
def set_community_names (st : RegState) (communities : List (String × String)) :
    Except SnmpErr Bool × RegState × List RegOp :=
  if st.gpoExists then
    (.error (.gpoManaged "Communities on this system are managed by Group Policy"), st, [])
  else
    let current_communities := get_community_names st
    if dictEqB communities current_communities then (.ok true, st, [])
    else
      match normalizeValidate communities with
      | .error e => (.error e, st, [])
      | .ok (communities, values) =>
        let u := updateExisting values current_communities st.localComms
        let c := createNew current_communities values u.1
        let st1 := { st with localComms := c.1 }
        let new_communities := get_community_names st1
        (.ok (!failedCommunities communities new_communities), st1, u.2 ++ c.2)

/-! ## Helper lemmas -/

theorem insertLe_ne_nil {α : Type} (le : α → α → Bool) (x : α) (l : List α) :
    insertLe le x l ≠ [] := by
  cases l with
  | nil => simp [insertLe]
  | cons y ys => simp only [insertLe]; split <;> simp

theorem sortBy_ne_nil {α : Type} (le : α → α → Bool) (l : List α) (h : l ≠ []) :
    sortBy le l ≠ [] := by
  cases l with
  | nil => exact absurd rfl h
  | cons x xs => exact insertLe_ne_nil le x (sortBy le xs)

theorem decompLoop_ne_nil : ∀ (L : List (String × Int)) (cur : Int), 0 < cur →
    ∀ e : String × Int, e ∈ L → 0 ≤ cur - e.2 → decompLoop L cur ≠ []
  | [], _, _, e, he, _ => absurd he (List.not_mem_nil e)
  | (s, v) :: tl, cur, hcur, e, he, hrem => by
    simp only [decompLoop, if_pos hcur]
    by_cases hv : 0 ≤ cur - v
    · rw [if_pos hv]; simp
    · rw [if_neg hv]
      rcases List.mem_cons.mp he with he | he
      · rw [he] at hrem; exact absurd hrem hv
      · exact decompLoop_ne_nil tl cur hcur e he hrem

theorem decomposeServices_ne_nil (b : Int) (hb : 0 ≤ b) : decomposeServices b ≠ [] := by
  by_cases h0 : b = 0
  · subst h0; decide
  · have hpos : 0 < b := lt_of_le_of_ne hb (Ne.symm h0)
    have hbeq : (b == 0) = false := by simpa using h0
    unfold decomposeServices
    rw [hbeq]
    exact sortBy_ne_nil _ _
      (decompLoop_ne_nil sortedServiceTypes b hpos ("Physical", 1) (by decide) (by omega))

/-! ## Claim C1: decomposition of OR-combined bitmasks -/

/-- The OR-combination of the bit values of a subset of the five non-`"None"`
service types (selection flags in ascending name order: Applications,
Datalink and subnetwork, End-to-end, Internet, Physical). -/
def orMaskN (a d e i p : Bool) : Nat :=
  ((((0 ||| (if a then 64 else 0)) ||| (if d then 2 else 0)) ||| (if e then 8 else 0)) |||
    (if i then 4 else 0)) ||| (if p then 1 else 0)

/-- The names of the same subset, listed in ascending name order. -/
def chosenNames (a d e i p : Bool) : List String :=
  (if a then ["Applications"] else []) ++ (if d then ["Datalink and subnetwork"] else []) ++
  (if e then ["End-to-end"] else []) ++ (if i then ["Internet"] else []) ++
  (if p then ["Physical"] else [])

/-- Claim C1 (counterexample): the claim fails for a subset containing
`"None"` together with another member.  `{"None", "Physical"}` is a subset of
the ServiceType members; OR-combining its bit values gives `0 ||| 1 = 1`, yet
the decomposition of `1` is `["Physical"]`, not the name-sorted subset
`["None", "Physical"]`. -/
theorem C1_decompose_counterexample :
    ("None", (0 : Int)) ∈ SERVICE_TYPES ∧ ("Physical", (1 : Int)) ∈ SERVICE_TYPES ∧
    Int.ofNat (0 ||| 1) = 1 ∧
    decomposeServices 1 = ["Physical"] ∧
    sortBy strLe ["None", "Physical"] = ["None", "Physical"] ∧
    decomposeServices 1 ≠ ["None", "Physical"] := by decide

/-- Claim C1 (amended): for every nonempty subset of ServiceType members that
does not contain `"None"`, the decomposition performed by `get_agent_settings`
applied to the OR-combination of the subset's bit values returns exactly that
subset sorted by name; and a stored bitmask of exactly `0` — the
OR-combination of the empty subset or of `{"None"}` — yields the single
element list `["None"]`, not an empty list. -/
theorem C1_decompose_amended :
    (∀ a d e i p : Bool, (a || d || e || i || p) = true →
      decomposeServices (Int.ofNat (orMaskN a d e i p)) = chosenNames a d e i p) ∧
    decomposeServices 0 = ["None"] := by
  constructor
  · decide
  · rfl

/-- Witness for C1: the subset `{"Internet", "Physical"}` (bitmask
`4 ||| 1 = 5`) decomposes back to `["Internet", "Physical"]`, and bitmask `0`
decomposes to `["None"]`. -/
theorem C1_decompose_amended_witness :
    decomposeServices (Int.ofNat (orMaskN false false false true true)) =
      ["Internet", "Physical"] ∧
    decomposeServices 0 = ["None"] :=
  ⟨C1_decompose_amended.1 false false false true true rfl, C1_decompose_amended.2⟩

/-! ## Claim C3: writes for communities whose permission is unchanged -/

/-- Claim C3 (code bug): with local communities `{"a": 4 (Read Only),
"b": 2 (Notify)}`, no GPO key, and request `{"a": "Read Only"}`, the
reconciliation issues a `reg.set_value` for `"a"` even though the requested
permission `"Read Only"` equals the current one: the source compares the
permission name string from `get_community_names` against the integer in
`values` (`"Read Only" != 4`), which is always true in Python, contradicting
the code's own comment "Modify existing communities that have a different
permission value." -/
theorem C3_unchanged_permission_write_bug :
    get_community_names ⟨"c", "l", 0, .num 0, [("a", 4), ("b", 2)], false, []⟩ =
      [("a", "Read Only"), ("b", "Notify")] ∧
    PERMISSION_TYPES.lookup "Read Only" = some 4 ∧
    pyEq (.pyStr "Read Only") (.pyInt 4) = false ∧
    set_community_names ⟨"c", "l", 0, .num 0, [("a", 4), ("b", 2)], false, []⟩
        [("a", "Read Only")] =
      (.ok true, ⟨"c", "l", 0, .num 0, [("a", 4)], false, []⟩,
        [RegOp.setDword COMMUNITIES_KEY "a" 4, RegOp.deleteValue COMMUNITIES_KEY "b"]) := by
  decide

/-! ## Claim C4: GPO key blocks community writes -/

/-- Claim C4: whenever the GPO community key exists — regardless of its
contents or of the requested mapping — `set_community_names` raises
`CommandExecutionError` with the Group Policy message, leaving the registry
unchanged with no write or delete issued. -/
theorem C4_gpo_blocks_community_writes (st : RegState)
    (communities : List (String × String)) (h : st.gpoExists = true) :
    set_community_names st communities =
      (.error (.gpoManaged "Communities on this system are managed by Group Policy"), st, []) := by
  simp [set_community_names, h]

/-- Witness for C4: a concrete state whose GPO key exists (here with one GPO
entry and a divergent request). -/
theorem C4_gpo_blocks_community_writes_witness :
    set_community_names ⟨"c", "l", 0, .num 0, [("a", 4)], true, [some ("1", "comm1")]⟩
        [("b", "Notify")] =
      (.error (.gpoManaged "Communities on this system are managed by Group Policy"),
        ⟨"c", "l", 0, .num 0, [("a", 4)], true, [some ("1", "comm1")]⟩, []) :=
  C4_gpo_blocks_community_writes _ _ rfl

/-! ## Claim C9: set_auth_traps_enabled -/

/-- Claim C9: for every boolean `status`, `set_auth_traps_enabled` is a no-op
returning `True` (no store write) when `get_auth_traps_enabled` already equals
`status`; otherwise it writes `status` coerced to integer `0`/`1` under the
`EnableAuthenticationTraps` value name, re-reads, and returns `True` if and
only if the re-read boolean equals the requested status. -/
theorem C9_set_auth_traps_enabled_spec (st : RegState) (status : Bool) :
    (get_auth_traps_enabled st = status →
      set_auth_traps_enabled st status = (true, st, [])) ∧
    (get_auth_traps_enabled st ≠ status →
      (set_auth_traps_enabled st status).2.1 =
        { st with enableAuthTraps := .num (if status then 1 else 0) } ∧
      (set_auth_traps_enabled st status).2.2 =
        [RegOp.setDword SNMP_KEY "EnableAuthenticationTraps" (if status then 1 else 0)] ∧
      ((set_auth_traps_enabled st status).1 = true ↔
        get_auth_traps_enabled (set_auth_traps_enabled st status).2.1 = status)) := by
  constructor
  · intro h
    simp [set_auth_traps_enabled, h]
  · intro h
    have hne : (status == get_auth_traps_enabled st) = false := by
      simp only [beq_eq_false_iff_ne]
      exact fun hh => h hh.symm
    have hred : set_auth_traps_enabled st status =
        ((status ==
            get_auth_traps_enabled { st with enableAuthTraps := .num (if status then 1 else 0) }),
          { st with enableAuthTraps := .num (if status then 1 else 0) },
          [RegOp.setDword SNMP_KEY "EnableAuthenticationTraps" (if status then 1 else 0)]) := by
      simp [set_auth_traps_enabled, hne]
    rw [hred]
    refine ⟨rfl, rfl, ?_⟩
    exact ⟨fun hb => (beq_iff_eq.mp hb).symm, fun hb => beq_iff_eq.mpr hb.symm⟩

/-- Witness for C9: a no-op when traps are already on (`vdata = 1`), and a
write of `1` when they are off (`vdata = 0`). -/
theorem C9_set_auth_traps_enabled_spec_witness :
    set_auth_traps_enabled ⟨"c", "l", 0, .num 1, [], false, []⟩ true =
      (true, ⟨"c", "l", 0, .num 1, [], false, []⟩, []) ∧
    (set_auth_traps_enabled ⟨"c", "l", 0, .num 0, [], false, []⟩ true).2.2 =
      [RegOp.setDword SNMP_KEY "EnableAuthenticationTraps" 1] :=
  ⟨(C9_set_auth_traps_enabled_spec _ true).1 (by decide),
    ((C9_set_auth_traps_enabled_spec _ true).2 (by decide)).2.1⟩

/-! ## Claim C10: set_agent_settings with an empty services list -/

theorem decomposeServices_zero : decomposeServices 0 = ["None"] := rfl

/-- Claim C10: for every store state whose `sysServices` reads as a
non-negative integer, `set_agent_settings` with `services = []` returns
`False`: it stores bitmask `0` (the current service set, being nonempty,
always differs from the empty set), the verify step re-reads the settings,
bitmask `0` decodes to `["None"]`, and comparing the requested `[]` against
`["None"]` records `services` as a failed field. -/
theorem C10_empty_services_returns_false (st : RegState) (contact location : Option String)
    (h : 0 ≤ st.sysServices) :
    (set_agent_settings st contact location (some [])).1 = .ok false ∧
    (set_agent_settings st contact location (some [])).2.1.sysServices = 0 ∧
    RegOp.setDword AGENT_KEY "sysServices" 0 ∈
      (set_agent_settings st contact location (some [])).2.2 := by
  have hne := decomposeServices_ne_nil st.sysServices h
  obtain ⟨x, xs, hx⟩ : ∃ x xs, decomposeServices st.sysServices = x :: xs := by
    cases hd : decomposeServices st.sysServices with
    | nil => exact absurd hd hne
    | cons x xs => exact ⟨x, xs, rfl⟩
  have hvalid : validateServices (some []) = .ok (some []) := rfl
  have hneq : (⟨contact, location, some []⟩ : AgentSettings) ≠
      (get_agent_settings st).toSettings := by
    intro heq
    have h2 : some ([] : List String) = some (decomposeServices st.sysServices) :=
      congrArg AgentSettings.services heq
    rw [hx] at h2
    cases h2
  have hseteq : setEqB [] (get_agent_settings st).services = false := by
    show setEqB [] (decomposeServices st.sysServices) = false
    rw [hx]; simp [setEqB]
  simp only [set_agent_settings, hvalid]
  rw [if_neg hneq]
  simp only [applyServices, hseteq, Bool.not_false, if_pos, servicesBitmask, List.map_nil,
    List.sum_nil, ite_true]
  refine ⟨?_, ?_, ?_⟩
  · have hnews : (get_agent_settings
        { (applyLocation (applyContact st contact (get_agent_settings st)).1 location
            (get_agent_settings st)).1 with sysServices := 0 }).services = ["None"] := by
      simp [get_agent_settings, decomposeServices_zero]
    simp only [failedAgentFields, hnews]
    simp [List.isEmpty_eq_false_iff_exists_mem]
  · simp
  · simp

/-- Witness for C10: a concrete state with `sysServices = 5` and no other
arguments: the call stores `0` and still returns `False`. -/
theorem C10_empty_services_returns_false_witness :
    (set_agent_settings ⟨"c", "l", 5, .num 0, [], false, []⟩ none none (some [])).1 =
      .ok false ∧
    (set_agent_settings ⟨"c", "l", 5, .num 0, [], false, []⟩ none none (some [])).2.1.sysServices
      = 0 ∧
    RegOp.setDword AGENT_KEY "sysServices" 0 ∈
      (set_agent_settings ⟨"c", "l", 5, .num 0, [], false, []⟩ none none (some [])).2.2 :=
  C10_empty_services_returns_false ⟨"c", "l", 5, .num 0, [], false, []⟩ none none (by decide)

/-! ## Claim C5: validation errors precede any store mutation -/

theorem sortBy_perm {α : Type} (le : α → α → Bool) (l : List α) : (sortBy le l).Perm l := by
  induction l with
  | nil => exact List.Perm.refl _
  | cons x xs ih =>
    have h : ∀ (m : List α), (insertLe le x m).Perm (x :: m) := by
      intro m
      induction m with
      | nil => exact List.Perm.refl _
      | cons y ys ihm =>
        simp only [insertLe]
        split
        · exact List.Perm.refl _
        · exact (ihm.cons y).trans (List.Perm.swap x y ys)
    exact (h (sortBy le xs)).trans (ih.cons x)

theorem mem_pyDistinct_aux (l acc : List String) (x : String) :
    (x ∈ l.foldl (fun acc y => if acc.contains y then acc else acc ++ [y]) acc) ↔
      x ∈ acc ∨ x ∈ l := by
  induction l generalizing acc with
  | nil => simp
  | cons y ys ih =>
    simp only [List.foldl_cons]
    by_cases hy : acc.contains y
    · rw [if_pos hy, ih]
      have hyy : y ∈ acc := by simpa using hy
      constructor
      · rintro (h | h)
        · exact Or.inl h
        · exact Or.inr (List.mem_cons_of_mem _ h)
      · rintro (h | h)
        · exact Or.inl h
        · rcases List.mem_cons.mp h with h | h
          · exact Or.inl (h ▸ hyy)
          · exact Or.inr h
    · rw [if_neg hy, ih]
      simp [List.mem_append, or_assoc]

theorem mem_sortedDistinct (l : List String) (x : String) :
    x ∈ sortedDistinct l ↔ x ∈ l := by
  unfold sortedDistinct
  rw [(sortBy_perm strLe (pyDistinct l)).mem_iff]
  unfold pyDistinct
  rw [mem_pyDistinct_aux]
  simp

theorem mem_of_lookup_eq_some {β : Type} {l : List (String × β)} {k : String} {v : β}
    (h : l.lookup k = some v) : (k, v) ∈ l := by
  induction l with
  | nil => cases h
  | cons p ps ih =>
    obtain ⟨pk, pv⟩ := p
    rw [List.lookup_cons] at h
    split at h
    · cases h
      have hk : k = pk := by rename_i hbeq; exact eq_of_beq hbeq
      subst hk
      exact List.mem_cons_self _ _
    · exact List.mem_cons_of_mem _ (ih h)

theorem permissionName_norm_isSome (n : Int) :
    (PERMISSION_TYPES.lookup
      (if permissionName n == "" then "None" else permissionName n)).isSome = true := by
  unfold permissionName
  cases hf : PERMISSION_TYPES.find? (fun p => n == p.2) with
  | none => decide
  | some p =>
    have hp := List.mem_of_find?_eq_some hf
    fin_cases hp <;> decide

theorem dictInsert_values (P : String → Prop) {d : List (String × String)} {k v : String}
    (hd : ∀ kv ∈ d, P kv.2) (hv : P v) : ∀ kv ∈ dictInsert d k v, P kv.2 := by
  intro kv hkv
  unfold dictInsert at hkv
  split at hkv
  · obtain ⟨r, hr, hrkv⟩ := List.mem_map.mp hkv
    by_cases hrk : (r.1 == k) = true
    · rw [if_pos hrk] at hrkv
      rw [← hrkv]
      exact hv
    · rw [if_neg hrk] at hrkv
      rw [← hrkv]
      exact hd r hr
  · rcases List.mem_append.mp hkv with h | h
    · exact hd kv h
    · simp only [List.mem_singleton] at h
      rw [h]
      exact hv

theorem localFold_values (P : String → Prop) (hP : ∀ n : Int, P (permissionName n)) :
    ∀ (l : List (String × Int)) (acc : List (String × String)),
      (∀ kv ∈ acc, P kv.2) →
      ∀ kv ∈ l.foldl (fun r p => dictInsert r p.1 (permissionName p.2)) acc, P kv.2 := by
  intro l
  induction l with
  | nil => intro acc hacc; exact hacc
  | cons p ps ih =>
    intro acc hacc
    simp only [List.foldl_cons]
    exact ih _ (dictInsert_values P hacc (hP p.2))

theorem get_community_names_values_valid (st : RegState) (hgpo : st.gpoExists = false) :
    ∀ kv ∈ get_community_names st,
      (PERMISSION_TYPES.lookup (if kv.2 == "" then "None" else kv.2)).isSome = true := by
  unfold get_community_names
  rw [hgpo]
  simp only [if_false, List.isEmpty_nil, ite_true, if_true]
  exact localFold_values
    (fun v => (PERMISSION_TYPES.lookup (if v == "" then "None" else v)).isSome = true)
    permissionName_norm_isSome st.localComms [] (by intro kv h; cases h)

theorem normalizeValidate_error {communities : List (String × String)}
    (hbad : ∃ kv ∈ communities,
      PERMISSION_TYPES.lookup (if kv.2 == "" then "None" else kv.2) = none) :
    ∃ bad, PERMISSION_TYPES.lookup bad = none ∧
      (∃ kv ∈ communities, bad = if kv.2 == "" then "None" else kv.2) ∧
      normalizeValidate communities = .error (.invalidPermission bad get_permission_types) := by
  induction communities with
  | nil => obtain ⟨kv, h, _⟩ := hbad; cases h
  | cons p ps ih =>
    obtain ⟨pk, pv⟩ := p
    by_cases hhd : PERMISSION_TYPES.lookup (if pv == "" then "None" else pv) = none
    · refine ⟨if pv == "" then "None" else pv, hhd, ⟨(pk, pv), List.mem_cons_self _ _, rfl⟩, ?_⟩
      simp only [normalizeValidate]
      rw [hhd]
    · obtain ⟨kv, hkv, hkvbad⟩ := hbad
      rcases List.mem_cons.mp hkv with h | h
      · rw [h] at hkvbad
        exact absurd hkvbad hhd
      · obtain ⟨bad, hb1, ⟨kv2, hkv2, hb2⟩, hb3⟩ := ih ⟨kv, h, hkvbad⟩
        refine ⟨bad, hb1, ⟨kv2, List.mem_cons_of_mem _ hkv2, hb2⟩, ?_⟩
        simp only [normalizeValidate]
        obtain ⟨vd, hvd⟩ := Option.isSome_iff_exists.mp (Option.ne_none_iff_isSome.mp hhd)
        rw [hvd, hb3]

/-- Claim C5: an unrecognised service name makes `set_agent_settings` raise
`SaltInvocationError` naming the bad value and the valid service names, with
the registry unchanged and no write issued; an unrecognised (normalised,
non-falsy) permission name makes `set_community_names` (with no GPO key)
raise `SaltInvocationError` naming the bad value and the valid permission
names, with the registry unchanged and no write or delete issued. -/
theorem C5_invalid_name_raises_before_mutation
    (st stc : RegState) (contact location : Option String) (services : List String)
    (communities : List (String × String))
    (hserv : ∃ s ∈ services, SERVICE_TYPES.lookup s = none)
    (hgpo : stc.gpoExists = false)
    (hperm : ∃ kv ∈ communities,
      PERMISSION_TYPES.lookup (if kv.2 == "" then "None" else kv.2) = none) :
    (∃ bad, bad ∈ services ∧ SERVICE_TYPES.lookup bad = none ∧
      set_agent_settings st contact location (some services) =
        (.error (.invalidService bad get_agent_service_types), st, [])) ∧
    (∃ bad, PERMISSION_TYPES.lookup bad = none ∧
      (∃ kv ∈ communities, bad = if kv.2 == "" then "None" else kv.2) ∧
      set_community_names stc communities =
        (.error (.invalidPermission bad get_permission_types), stc, [])) := by
  constructor
  · obtain ⟨s, hs, hsl⟩ := hserv
    have hex : ∃ x ∈ sortedDistinct services, ((SERVICE_TYPES.lookup x).isNone) = true :=
      ⟨s, (mem_sortedDistinct services s).mpr hs, by simp [hsl]⟩
    obtain ⟨bad, hfind⟩ := Option.isSome_iff_exists.mp (List.find?_isSome.mpr hex)
    have hbadl : SERVICE_TYPES.lookup bad = none := by
      have := List.find?_some hfind
      simpa [Option.isNone_iff_eq_none] using this
    have hbadm : bad ∈ services :=
      (mem_sortedDistinct services bad).mp (List.mem_of_find?_eq_some hfind)
    have hval : validateServices (some services) =
        .error (.invalidService bad get_agent_service_types) := by
      simp only [validateServices]
      rw [hfind]
    refine ⟨bad, hbadm, hbadl, ?_⟩
    simp only [set_agent_settings, hval]
  · have hdne : dictEqB communities (get_community_names stc) = false := by
      by_contra hcon
      have htrue : dictEqB communities (get_community_names stc) = true := by
        cases hd : dictEqB communities (get_community_names stc)
        · exact absurd hd hcon
        · rfl
      obtain ⟨kv, hkv, hkvbad⟩ := hperm
      have hall := (Bool.and_eq_true _ _).mp htrue |>.1
      rw [List.all_eq_true] at hall
      have hlk := hall kv hkv
      simp only [beq_iff_eq] at hlk
      have hmem := mem_of_lookup_eq_some hlk
      have hvalid := get_community_names_values_valid stc hgpo (kv.1, kv.2) hmem
      simp only at hvalid
      rw [hkvbad] at hvalid
      cases hvalid
    obtain ⟨bad, hb1, hb2, hb3⟩ := normalizeValidate_error hperm
    refine ⟨bad, hb1, hb2, ?_⟩
    simp only [set_community_names, hgpo, hdne, hb3]
    simp

/-- Witness for C5: the invalid service `"Bogus"` and the invalid permission
`"Bogus"` each raise with the registry untouched. -/
theorem C5_invalid_name_raises_before_mutation_witness :
    (∃ bad, bad ∈ ["Bogus"] ∧ SERVICE_TYPES.lookup bad = none ∧
      set_agent_settings ⟨"c", "l", 0, .num 0, [], false, []⟩ none none (some ["Bogus"]) =
        (.error (.invalidService bad get_agent_service_types),
          ⟨"c", "l", 0, .num 0, [], false, []⟩, [])) ∧
    (∃ bad, PERMISSION_TYPES.lookup bad = none ∧
      (∃ kv ∈ [("a", "Bogus")], bad = if kv.2 == "" then "None" else kv.2) ∧
      set_community_names ⟨"c", "l", 0, .num 0, [], false, []⟩ [("a", "Bogus")] =
        (.error (.invalidPermission bad get_permission_types),
          ⟨"c", "l", 0, .num 0, [], false, []⟩, [])) :=
  C5_invalid_name_raises_before_mutation _ _ none none _ _
    ⟨"Bogus", by decide, by decide⟩ rfl ⟨("a", "Bogus"), by decide, by decide⟩

/-! ## Claim C7: per-field frame effects of set_agent_settings -/

/-- The value name a registry mutation targets. -/
def RegOp.vname : RegOp → String
  | .setStr _ n _ => n
  | .setDword _ n _ => n
  | .deleteValue _ n => n

theorem applyContact_none (st : RegState) (cur : AgentRead) :
    applyContact st none cur = (st, []) := rfl

theorem applyContact_some_eq (st : RegState) (cur : AgentRead) (c : String)
    (h : c = cur.contact) : applyContact st (some c) cur = (st, []) := by
  simp [applyContact, h]

theorem applyContact_some_ne (st : RegState) (cur : AgentRead) (c : String)
    (h : c ≠ cur.contact) : applyContact st (some c) cur =
      ({ st with sysContact := c }, [RegOp.setStr AGENT_KEY "sysContact" c]) := by
  simp [applyContact, h]

theorem applyLocation_none (st : RegState) (cur : AgentRead) :
    applyLocation st none cur = (st, []) := rfl

theorem applyLocation_some_eq (st : RegState) (cur : AgentRead) (v : String)
    (h : v = cur.location) : applyLocation st (some v) cur = (st, []) := by
  simp [applyLocation, h]

theorem applyLocation_some_ne (st : RegState) (cur : AgentRead) (v : String)
    (h : v ≠ cur.location) : applyLocation st (some v) cur =
      ({ st with sysLocation := v }, [RegOp.setStr AGENT_KEY "sysLocation" v]) := by
  simp [applyLocation, h]

theorem applyServices_none (st : RegState) (cur : AgentRead) :
    applyServices st none cur = (st, []) := rfl

theorem applyServices_some_eq (st : RegState) (cur : AgentRead) (l : List String)
    (h : setEqB l cur.services = true) : applyServices st (some l) cur = (st, []) := by
  simp [applyServices, h]

theorem applyServices_some_ne (st : RegState) (cur : AgentRead) (l : List String)
    (h : setEqB l cur.services = false) : applyServices st (some l) cur =
      ({ st with sysServices := servicesBitmask l },
        [RegOp.setDword AGENT_KEY "sysServices" (servicesBitmask l)]) := by
  simp [applyServices, h]

theorem applyContact_ops_vname (st : RegState) (c : Option String) (cur : AgentRead) :
    ∀ op ∈ (applyContact st c cur).2, op.vname = "sysContact" := by
  cases c with
  | none => intro op h; cases h
  | some v =>
    simp only [applyContact]
    split <;> intro op h
    · simp only [List.mem_singleton] at h
      subst h; rfl
    · cases h

theorem applyLocation_ops_vname (st : RegState) (v0 : Option String) (cur : AgentRead) :
    ∀ op ∈ (applyLocation st v0 cur).2, op.vname = "sysLocation" := by
  cases v0 with
  | none => intro op h; cases h
  | some v =>
    simp only [applyLocation]
    split <;> intro op h
    · simp only [List.mem_singleton] at h
      subst h; rfl
    · cases h

theorem applyServices_ops_vname (st : RegState) (s : Option (List String)) (cur : AgentRead) :
    ∀ op ∈ (applyServices st s cur).2, op.vname = "sysServices" := by
  cases s with
  | none => intro op h; cases h
  | some l =>
    simp only [applyServices]
    split <;> intro op h
    · simp only [List.mem_singleton] at h
      subst h; rfl
    · cases h

theorem applyContact_keeps_location (st : RegState) (c : Option String) (cur : AgentRead) :
    (applyContact st c cur).1.sysLocation = st.sysLocation := by
  cases c with
  | none => rfl
  | some v => simp only [applyContact]; split <;> rfl

theorem applyContact_keeps_services (st : RegState) (c : Option String) (cur : AgentRead) :
    (applyContact st c cur).1.sysServices = st.sysServices := by
  cases c with
  | none => rfl
  | some v => simp only [applyContact]; split <;> rfl

theorem applyLocation_keeps_contact (st : RegState) (v0 : Option String) (cur : AgentRead) :
    (applyLocation st v0 cur).1.sysContact = st.sysContact := by
  cases v0 with
  | none => rfl
  | some v => simp only [applyLocation]; split <;> rfl

theorem applyLocation_keeps_services (st : RegState) (v0 : Option String) (cur : AgentRead) :
    (applyLocation st v0 cur).1.sysServices = st.sysServices := by
  cases v0 with
  | none => rfl
  | some v => simp only [applyLocation]; split <;> rfl

theorem applyServices_keeps_contact (st : RegState) (s : Option (List String)) (cur : AgentRead) :
    (applyServices st s cur).1.sysContact = st.sysContact := by
  cases s with
  | none => rfl
  | some l => simp only [applyServices]; split <;> rfl

theorem applyServices_keeps_location (st : RegState) (s : Option (List String)) (cur : AgentRead) :
    (applyServices st s cur).1.sysLocation = st.sysLocation := by
  cases s with
  | none => rfl
  | some l => simp only [applyServices]; split <;> rfl

theorem setEqB_refl (l : List String) : setEqB l l = true := by
  simp [setEqB, List.all_eq_true]

theorem set_agent_settings_shortcut (st : RegState) (contact location : Option String)
    (services0 s : Option (List String)) (hok : validateServices services0 = .ok s)
    (heq : (⟨contact, location, s⟩ : AgentSettings) = (get_agent_settings st).toSettings) :
    set_agent_settings st contact location services0 = (.ok true, st, []) := by
  simp only [set_agent_settings, hok]
  rw [if_pos heq]

theorem set_agent_settings_reconcile (st : RegState) (contact location : Option String)
    (services0 s : Option (List String)) (hok : validateServices services0 = .ok s)
    (hne : (⟨contact, location, s⟩ : AgentSettings) ≠ (get_agent_settings st).toSettings) :
    (set_agent_settings st contact location services0).2.1 =
      (applyServices (applyLocation (applyContact st contact (get_agent_settings st)).1
        location (get_agent_settings st)).1 s (get_agent_settings st)).1 ∧
    (set_agent_settings st contact location services0).2.2 =
      (applyContact st contact (get_agent_settings st)).2 ++
      (applyLocation (applyContact st contact (get_agent_settings st)).1 location
        (get_agent_settings st)).2 ++
      (applyServices (applyLocation (applyContact st contact (get_agent_settings st)).1
        location (get_agent_settings st)).1 s (get_agent_settings st)).2 ∧
    (set_agent_settings st contact location services0).1 =
      .ok (failedAgentFields ⟨contact, location, s⟩ (get_agent_settings
        (applyServices (applyLocation (applyContact st contact (get_agent_settings st)).1
          location (get_agent_settings st)).1 s (get_agent_settings st)).1)).isEmpty := by
  simp only [set_agent_settings, hok]
  rw [if_neg hne]
  exact ⟨rfl, rfl, rfl⟩

theorem validateServices_some {l : List String} {s : Option (List String)}
    (hok : validateServices (some l) = .ok s) : s = some (sortedDistinct l) := by
  simp only [validateServices] at hok
  cases hf : (sortedDistinct l).find? (fun service => (SERVICE_TYPES.lookup service).isNone) with
  | some bad => rw [hf] at hok; cases hok
  | none => rw [hf] at hok; cases hok; rfl

/-- Claim C7: in `set_agent_settings`, an argument left `None` leaves its
stored value unchanged with no write issued for that field; a provided field
equal to the current reading (contact and location compared as raw strings,
services compared as a set of names) is not written; and a provided field
that differs is written — contact and location as the raw string, services as
the summed bit values of the deduplicated sorted selection, which is `0` for
an empty selection. -/
theorem C7_field_frame_effects (st : RegState) (contact location : Option String)
    (services0 s : Option (List String)) (hok : validateServices services0 = .ok s) :
    (contact = none →
      (set_agent_settings st contact location services0).2.1.sysContact = st.sysContact ∧
      ∀ op ∈ (set_agent_settings st contact location services0).2.2,
        op.vname ≠ "sysContact") ∧
    (∀ c, contact = some c →
      (c = (get_agent_settings st).contact →
        (set_agent_settings st contact location services0).2.1.sysContact = st.sysContact ∧
        ∀ op ∈ (set_agent_settings st contact location services0).2.2,
          op.vname ≠ "sysContact") ∧
      (c ≠ (get_agent_settings st).contact →
        (set_agent_settings st contact location services0).2.1.sysContact = c ∧
        RegOp.setStr AGENT_KEY "sysContact" c ∈
          (set_agent_settings st contact location services0).2.2)) ∧
    (location = none →
      (set_agent_settings st contact location services0).2.1.sysLocation = st.sysLocation ∧
      ∀ op ∈ (set_agent_settings st contact location services0).2.2,
        op.vname ≠ "sysLocation") ∧
    (∀ v, location = some v →
      (v = (get_agent_settings st).location →
        (set_agent_settings st contact location services0).2.1.sysLocation = st.sysLocation ∧
        ∀ op ∈ (set_agent_settings st contact location services0).2.2,
          op.vname ≠ "sysLocation") ∧
      (v ≠ (get_agent_settings st).location →
        (set_agent_settings st contact location services0).2.1.sysLocation = v ∧
        RegOp.setStr AGENT_KEY "sysLocation" v ∈
          (set_agent_settings st contact location services0).2.2)) ∧
    (services0 = none →
      (set_agent_settings st contact location services0).2.1.sysServices = st.sysServices ∧
      ∀ op ∈ (set_agent_settings st contact location services0).2.2,
        op.vname ≠ "sysServices") ∧
    (∀ l, services0 = some l →
      (setEqB (sortedDistinct l) (get_agent_settings st).services = true →
        (set_agent_settings st contact location services0).2.1.sysServices = st.sysServices ∧
        ∀ op ∈ (set_agent_settings st contact location services0).2.2,
          op.vname ≠ "sysServices") ∧
      (setEqB (sortedDistinct l) (get_agent_settings st).services = false →
        (set_agent_settings st contact location services0).2.1.sysServices =
          servicesBitmask (sortedDistinct l) ∧
        RegOp.setDword AGENT_KEY "sysServices" (servicesBitmask (sortedDistinct l)) ∈
          (set_agent_settings st contact location services0).2.2)) ∧
    servicesBitmask [] = 0 := by
  by_cases hsc : (⟨contact, location, s⟩ : AgentSettings) = (get_agent_settings st).toSettings
  · have hr := set_agent_settings_shortcut st contact location services0 s hok hsc
    have hcc : contact = some (get_agent_settings st).contact :=
      congrArg AgentSettings.contact hsc
    have hll : location = some (get_agent_settings st).location :=
      congrArg AgentSettings.location hsc
    have hss : s = some (get_agent_settings st).services :=
      congrArg AgentSettings.services hsc
    rw [hr]
    refine ⟨fun _ => ⟨rfl, fun op h => absurd h (List.not_mem_nil op)⟩,
      fun c hc => ⟨fun _ => ⟨rfl, fun op h => absurd h (List.not_mem_nil op)⟩, fun hne => ?_⟩,
      fun _ => ⟨rfl, fun op h => absurd h (List.not_mem_nil op)⟩,
      fun v hv => ⟨fun _ => ⟨rfl, fun op h => absurd h (List.not_mem_nil op)⟩, fun hne => ?_⟩,
      fun _ => ⟨rfl, fun op h => absurd h (List.not_mem_nil op)⟩,
      fun l hl => ⟨fun _ => ⟨rfl, fun op h => absurd h (List.not_mem_nil op)⟩, fun hne => ?_⟩,
      rfl⟩
    · rw [hc] at hcc
      exact absurd (Option.some.inj hcc) hne
    · rw [hv] at hll
      exact absurd (Option.some.inj hll) hne
    · subst hl
      have hsd := validateServices_some hok
      rw [hsd] at hss
      rw [Option.some.inj hss] at hne
      rw [setEqB_refl] at hne
      cases hne
  · obtain ⟨hst, hops, hres⟩ := set_agent_settings_reconcile st contact location services0 s hok hsc
    refine ⟨?_, ?_, ?_, ?_, ?_, ?_, rfl⟩
    · intro hc
      subst hc
      constructor
      · rw [hst, applyServices_keeps_contact, applyLocation_keeps_contact, applyContact_none]
      · intro op hop
        rw [hops, applyContact_none] at hop
        simp only [List.nil_append, List.mem_append] at hop
        rcases hop with h | h
        · rw [applyLocation_ops_vname _ _ _ op h]; decide
        · rw [applyServices_ops_vname _ _ _ op h]; decide
    · intro c hc
      subst hc
      constructor
      · intro hce
        constructor
        · rw [hst, applyServices_keeps_contact, applyLocation_keeps_contact,
            applyContact_some_eq st _ c hce]
        · intro op hop
          rw [hops, applyContact_some_eq st _ c hce] at hop
          simp only [List.nil_append, List.mem_append] at hop
          rcases hop with h | h
          · rw [applyLocation_ops_vname _ _ _ op h]; decide
          · rw [applyServices_ops_vname _ _ _ op h]; decide
      · intro hcne
        constructor
        · rw [hst, applyServices_keeps_contact, applyLocation_keeps_contact,
            applyContact_some_ne st _ c hcne]
        · rw [hops, applyContact_some_ne st _ c hcne]
          simp
    · intro hl
      subst hl
      constructor
      · rw [hst, applyServices_keeps_location, applyLocation_none]
        exact applyContact_keeps_location st contact (get_agent_settings st)
      · intro op hop
        rw [hops, applyLocation_none] at hop
        simp only [List.append_nil, List.mem_append] at hop
        rcases hop with h | h
        · rw [applyContact_ops_vname _ _ _ op h]; decide
        · rw [applyServices_ops_vname _ _ _ op h]; decide
    · intro v hv
      subst hv
      constructor
      · intro hve
        constructor
        · rw [hst, applyServices_keeps_location, applyLocation_some_eq _ _ v hve]
          exact applyContact_keeps_location st contact (get_agent_settings st)
        · intro op hop
          rw [hops, applyLocation_some_eq _ _ v hve] at hop
          simp only [List.append_nil, List.mem_append] at hop
          rcases hop with h | h
          · rw [applyContact_ops_vname _ _ _ op h]; decide
          · rw [applyServices_ops_vname _ _ _ op h]; decide
      · intro hvne
        constructor
        · rw [hst, applyServices_keeps_location, applyLocation_some_ne _ _ v hvne]
        · rw [hops, applyLocation_some_ne _ _ v hvne]
          simp
    · intro hs0
      subst hs0
      cases hok
      constructor
      · rw [hst, applyServices_none]
        exact (applyLocation_keeps_services _ _ _).trans (applyContact_keeps_services _ _ _)
      · intro op hop
        rw [hops, applyServices_none] at hop
        simp only [List.append_nil, List.mem_append] at hop
        rcases hop with h | h
        · rw [applyContact_ops_vname _ _ _ op h]; decide
        · rw [applyLocation_ops_vname _ _ _ op h]; decide
    · intro l hl
      subst hl
      have hsd := validateServices_some hok
      subst hsd
      constructor
      · intro hse
        constructor
        · rw [hst, applyServices_some_eq _ _ _ hse]
          exact (applyLocation_keeps_services _ _ _).trans (applyContact_keeps_services _ _ _)
        · intro op hop
          rw [hops, applyServices_some_eq _ _ _ hse] at hop
          simp only [List.append_nil, List.mem_append] at hop
          rcases hop with h | h
          · rw [applyContact_ops_vname _ _ _ op h]; decide
          · rw [applyLocation_ops_vname _ _ _ op h]; decide
      · intro hsne
        constructor
        · rw [hst, applyServices_some_ne _ _ _ hsne]
        · rw [hops, applyServices_some_ne _ _ _ hsne]
          simp

/-- Witness for C7: with stored bitmask `5`, contact unset and location equal
to the current value, requesting `["Physical"]` leaves `sysContact` untouched
and issues the `sysServices` write with the summed bit value. -/
theorem C7_field_frame_effects_witness :
    (set_agent_settings ⟨"c", "l", 5, .num 0, [], false, []⟩ none (some "l")
      (some ["Physical"])).2.1.sysContact = "c" ∧
    RegOp.setDword AGENT_KEY "sysServices" (servicesBitmask (sortedDistinct ["Physical"])) ∈
      (set_agent_settings ⟨"c", "l", 5, .num 0, [], false, []⟩ none (some "l")
        (some ["Physical"])).2.2 := by
  have h := C7_field_frame_effects ⟨"c", "l", 5, .num 0, [], false, []⟩ none (some "l")
    (some ["Physical"]) (some ["Physical"]) rfl
  exact ⟨(h.1 rfl).1, ((h.2.2.2.2.2.1 ["Physical"] rfl).2 (by decide)).2⟩

/-! ## Claim C6: idempotence of set_agent_settings -/

theorem failedAgentFields_nil_iff (settings : AgentSettings) (ns : AgentRead) :
    failedAgentFields settings ns = [] ↔
      (∀ c, settings.contact = some c → c = ns.contact) ∧
      (∀ v, settings.location = some v → v = ns.location) ∧
      (∀ l, settings.services = some l → l = ns.services) := by
  obtain ⟨c0, v0, l0⟩ := settings
  unfold failedAgentFields
  cases c0 <;> cases v0 <;> cases l0 <;>
    simp only [List.append_eq_nil] <;>
    simp_all <;>
    tauto

/-- Claim C6: `set_agent_settings` is idempotent: whenever a call with some
arguments returns `True`, calling it again with the same arguments returns
`True`, leaves the registry in exactly the state the first call produced, and
issues no store writes. -/
theorem C6_set_agent_settings_idempotent (st : RegState) (contact location : Option String)
    (services0 : Option (List String))
    (h : (set_agent_settings st contact location services0).1 = .ok true) :
    set_agent_settings (set_agent_settings st contact location services0).2.1
        contact location services0 =
      (.ok true, (set_agent_settings st contact location services0).2.1, []) := by
  cases hv : validateServices services0 with
  | error e =>
    have : set_agent_settings st contact location services0 = (.error e, st, []) := by
      simp only [set_agent_settings, hv]
    rw [this] at h
    cases h
  | ok s =>
    by_cases hsc : (⟨contact, location, s⟩ : AgentSettings) = (get_agent_settings st).toSettings
    · have hr := set_agent_settings_shortcut st contact location services0 s hv hsc
      rw [hr]
      exact hr
    · obtain ⟨hst, hops, hres⟩ :=
        set_agent_settings_reconcile st contact location services0 s hv hsc
      rw [hst] at *
      set D := (applyServices (applyLocation (applyContact st contact
        (get_agent_settings st)).1 location (get_agent_settings st)).1 s
        (get_agent_settings st)).1 with hD
      rw [hres] at h
      have hfail : failedAgentFields ⟨contact, location, s⟩ (get_agent_settings D) = [] := by
        have : (failedAgentFields ⟨contact, location, s⟩ (get_agent_settings D)).isEmpty
            = true := by
          have := Except.ok.inj h
          exact this
        exact List.isEmpty_iff.mp this
      obtain ⟨hc, hl, hs⟩ := (failedAgentFields_nil_iff _ _).mp hfail
      by_cases hsc2 : (⟨contact, location, s⟩ : AgentSettings) =
          (get_agent_settings D).toSettings
      · exact set_agent_settings_shortcut D contact location services0 s hv hsc2
      · obtain ⟨hst2, hops2, hres2⟩ :=
          set_agent_settings_reconcile D contact location services0 s hv hsc2
        have hA : applyContact D contact (get_agent_settings D) = (D, []) := by
          cases hco : contact with
          | none => exact applyContact_none D _
          | some c => exact applyContact_some_eq D _ c (hc c hco)
        have hB : applyLocation (applyContact D contact (get_agent_settings D)).1 location
            (get_agent_settings D) = (D, []) := by
          rw [hA]
          cases hlo : location with
          | none => exact applyLocation_none D _
          | some v => exact applyLocation_some_eq D _ v (hl v hlo)
        have hC : applyServices (applyLocation (applyContact D contact
            (get_agent_settings D)).1 location (get_agent_settings D)).1 s
            (get_agent_settings D) = (D, []) := by
          rw [hB]
          cases hso : s with
          | none => exact applyServices_none D _
          | some l =>
            refine applyServices_some_eq D _ l ?_
            rw [hs l hso]
            exact setEqB_refl _
        refine Prod.ext ?_ (Prod.ext ?_ ?_)
        · rw [hres2, hC]
          show Except.ok (failedAgentFields ⟨contact, location, s⟩
            (get_agent_settings D)).isEmpty = Except.ok true
          rw [hfail]
          rfl
        · rw [hst2, hC]
        · rw [hops2, hC, hB, hA]
          rfl

/-- Witness for C6: a successful concrete first call (writing contact and a
service bitmask), then the theorem applied to it. -/
theorem C6_set_agent_settings_idempotent_witness :
    set_agent_settings
        (set_agent_settings ⟨"c", "l", 0, .num 0, [], false, []⟩ (some "newc") none
          (some ["Physical", "Internet"])).2.1
        (some "newc") none (some ["Physical", "Internet"]) =
      (.ok true,
        (set_agent_settings ⟨"c", "l", 0, .num 0, [], false, []⟩ (some "newc") none
          (some ["Physical", "Internet"])).2.1,
        []) :=
  C6_set_agent_settings_idempotent ⟨"c", "l", 0, .num 0, [], false, []⟩ (some "newc") none
    (some ["Physical", "Internet"]) (by decide)

/-! ## Claim C8: GPO precedence in get_community_names -/

theorem dictInsert_ne_nil (d : List (String × String)) (k v : String) :
    dictInsert d k v ≠ [] := by
  unfold dictInsert
  split
  · rename_i hc
    intro h
    rw [List.map_eq_nil_iff] at h
    subst h
    cases hc
  · simp

theorem gpoFold_preserve_ne_nil (gl : List (Option (String × String)))
    (acc : List (String × String)) (h : acc ≠ []) :
    gl.foldl gpoInsertEntry acc ≠ [] := by
  induction gl generalizing acc with
  | nil => exact h
  | cons e es ih =>
    simp only [List.foldl_cons]
    apply ih
    cases e with
    | none => exact h
    | some p => exact dictInsert_ne_nil acc p.2 "Managed by GPO"

theorem gpoFold_ne_nil (gl : List (Option (String × String)))
    (acc : List (String × String)) (h : ∃ e ∈ gl, e.isSome = true) :
    gl.foldl gpoInsertEntry acc ≠ [] := by
  induction gl generalizing acc with
  | nil => obtain ⟨e, he, _⟩ := h; cases he
  | cons e es ih =>
    simp only [List.foldl_cons]
    cases e with
    | none =>
      obtain ⟨e2, he2, hs2⟩ := h
      rcases List.mem_cons.mp he2 with h2 | h2
      · rw [h2] at hs2; cases hs2
      · exact ih acc ⟨e2, h2, hs2⟩
    | some p =>
      exact gpoFold_preserve_ne_nil es _ (dictInsert_ne_nil acc p.2 "Managed by GPO")

theorem gpoFold_values (gl : List (Option (String × String)))
    (acc : List (String × String)) (hacc : ∀ kv ∈ acc, kv.2 = "Managed by GPO") :
    ∀ kv ∈ gl.foldl gpoInsertEntry acc, kv.2 = "Managed by GPO" := by
  induction gl generalizing acc with
  | nil => exact hacc
  | cons e es ih =>
    simp only [List.foldl_cons]
    apply ih
    cases e with
    | none => exact hacc
    | some p =>
      exact dictInsert_values (fun v => v = "Managed by GPO") hacc rfl

theorem keysOf_dictInsert (d : List (String × String)) (k v : String) :
    (dictInsert d k v).map Prod.fst =
      if containsKey d k then d.map Prod.fst else d.map Prod.fst ++ [k] := by
  unfold dictInsert containsKey
  split
  · rw [List.map_map]
    apply List.map_congr_left
    intro p _
    simp only [Function.comp]
    split
    · rename_i hpk
      exact (eq_of_beq hpk).symm
    · rfl
  · rw [List.map_append]
    rfl

theorem mem_keys_dictInsert (d : List (String × String)) (k v x : String) :
    x ∈ (dictInsert d k v).map Prod.fst ↔ x = k ∨ x ∈ d.map Prod.fst := by
  rw [keysOf_dictInsert]
  split
  · rename_i h
    constructor
    · exact Or.inr
    · rintro (rfl | hx)
      · unfold containsKey at h
        rw [List.any_eq_true] at h
        obtain ⟨p, hp, hpk⟩ := h
        exact List.mem_map.mpr ⟨p, hp, eq_of_beq hpk⟩
      · exact hx
  · rw [List.mem_append, List.mem_singleton]
    tauto

theorem gpoFold_keys (gl : List (Option (String × String)))
    (acc : List (String × String)) (x : String) :
    x ∈ (gl.foldl gpoInsertEntry acc).map Prod.fst ↔
      x ∈ acc.map Prod.fst ∨ ∃ n, some (n, x) ∈ gl := by
  induction gl generalizing acc with
  | nil => simp
  | cons e es ih =>
    simp only [List.foldl_cons]
    cases e with
    | none =>
      rw [ih]
      constructor
      · rintro (h | ⟨n, hn⟩)
        · exact Or.inl h
        · exact Or.inr ⟨n, List.mem_cons_of_mem _ hn⟩
      · rintro (h | ⟨n, hn⟩)
        · exact Or.inl h
        · rcases List.mem_cons.mp hn with h2 | h2
          · cases h2
          · exact Or.inr ⟨n, h2⟩
    | some p =>
      obtain ⟨pn, pd⟩ := p
      rw [ih]
      unfold gpoInsertEntry
      rw [mem_keys_dictInsert]
      constructor
      · rintro ((rfl | h) | ⟨n, hn⟩)
        · exact Or.inr ⟨pn, List.mem_cons_self _ _⟩
        · exact Or.inl h
        · exact Or.inr ⟨n, List.mem_cons_of_mem _ hn⟩
      · rintro (h | ⟨n, hn⟩)
        · exact Or.inl (Or.inr h)
        · rcases List.mem_cons.mp hn with h2 | h2
          · have : pd = x ∧ pn = n := by
              have h3 := h2.symm
              injection h3 with h4
              exact ⟨congrArg Prod.snd h4, congrArg Prod.fst h4⟩
            exact Or.inl (Or.inl this.1.symm)
          · exact Or.inr ⟨n, h2⟩

theorem localFold_append (l : List (String × Int)) (acc : List (String × String))
    (hdisj : ∀ p ∈ l, containsKey acc p.1 = false)
    (hnodup : (l.map Prod.fst).Nodup) :
    l.foldl localInsertEntry acc = acc ++ l.map (fun p => (p.1, permissionName p.2)) := by
  induction l generalizing acc with
  | nil => simp
  | cons p ps ih =>
    simp only [List.foldl_cons]
    have hip : localInsertEntry acc p = acc ++ [(p.1, permissionName p.2)] := by
      unfold localInsertEntry dictInsert
      have hfalse := hdisj p (List.mem_cons_self _ _)
      unfold containsKey at hfalse
      rw [hfalse]
      simp
    rw [hip, ih]
    · rw [List.append_assoc]
      rfl
    · intro q hq
      unfold containsKey
      rw [List.any_append]
      have h1 := hdisj q (List.mem_cons_of_mem _ hq)
      unfold containsKey at h1
      rw [h1, Bool.false_or]
      simp only [List.any_cons, List.any_nil, Bool.or_false]
      rw [beq_eq_false_iff_ne]
      intro hpe
      rw [List.map_cons, List.nodup_cons] at hnodup
      exact hnodup.1 (hpe ▸ List.mem_map.mpr ⟨q, hq, rfl⟩)
    · rw [List.map_cons, List.nodup_cons] at hnodup
      exact hnodup.2

theorem gpoFold_allNone (gl : List (Option (String × String)))
    (acc : List (String × String)) (h : ∀ e ∈ gl, e = none) :
    gl.foldl gpoInsertEntry acc = acc := by
  induction gl generalizing acc with
  | nil => rfl
  | cons e es ih =>
    simp only [List.foldl_cons]
    rw [h e (List.mem_cons_self _ _)]
    exact ih acc (fun e2 he2 => h e2 (List.mem_cons_of_mem _ he2))

/-- Claim C8: `get_community_names` gives precedence to GPO: when the GPO
community key exists and its enumeration yields at least one well-formed
entry, the result maps each enumerated community name to `"Managed by GPO"`
and the local table is not consulted; when the GPO key is absent or yields no
well-formed entry, the result comes from the local table, each name mapped
through the declared-order reverse permission lookup (`""` when unmatched) —
so an existing-but-empty GPO key falls through to local reads even though the
same key still blocks local writes. -/
theorem C8_gpo_precedence (st : RegState) :
    (st.gpoExists = true → (∃ e ∈ st.gpoComms, e.isSome = true) →
      (∀ kv ∈ get_community_names st, kv.2 = "Managed by GPO") ∧
      (∀ x, x ∈ (get_community_names st).map Prod.fst ↔ ∃ n, some (n, x) ∈ st.gpoComms) ∧
      (∀ L, get_community_names { st with localComms := L } = get_community_names st)) ∧
    ((st.gpoExists = false ∨ ∀ e ∈ st.gpoComms, e = none) →
      (st.localComms.map Prod.fst).Nodup →
      get_community_names st = st.localComms.map (fun p => (p.1, permissionName p.2))) ∧
    (st.gpoExists = true → ∀ communities, set_community_names st communities =
      (.error (.gpoManaged "Communities on this system are managed by Group Policy"),
        st, [])) := by
  refine ⟨fun hg hwf => ?_, fun hfall hnd => ?_, fun hg communities => ?_⟩
  · have hie : (st.gpoComms.foldl gpoInsertEntry []).isEmpty = false := by
      cases hfe : st.gpoComms.foldl gpoInsertEntry [] with
      | nil => exact absurd hfe (gpoFold_ne_nil _ _ hwf)
      | cons a l => rfl
    have hret : get_community_names st = st.gpoComms.foldl gpoInsertEntry [] := by
      unfold get_community_names
      rw [hg]
      simp [hie]
    refine ⟨?_, ?_, ?_⟩
    · rw [hret]
      exact gpoFold_values _ _ (fun kv h => absurd h (List.not_mem_nil kv))
    · intro x
      rw [hret, gpoFold_keys]
      simp
    · intro L
      have hret2 : get_community_names { st with localComms := L } =
          st.gpoComms.foldl gpoInsertEntry [] := by
        unfold get_community_names
        simp only
        rw [hg]
        simp [hie]
      rw [hret2, hret]
  · have hret0 : get_community_names st = st.localComms.foldl localInsertEntry [] := by
      unfold get_community_names
      rcases hfall with hg | hall
      · rw [hg]
        simp
      · cases hgp : st.gpoExists
        · simp
        · simp [gpoFold_allNone _ _ hall]
    rw [hret0, localFold_append st.localComms [] (fun p _ => rfl) hnd]
    rfl
  · simp [set_community_names, hg]

/-- Witness for C8: a GPO state with one well-formed entry marks everything
managed; a GPO state with only a malformed entry falls through to the local
table yet still rejects writes. -/
theorem C8_gpo_precedence_witness :
    (∀ kv ∈ get_community_names
        ⟨"c", "l", 0, .num 0, [("a", 4)], true, [none, some ("1", "comm1")]⟩,
      kv.2 = "Managed by GPO") ∧
    get_community_names ⟨"c", "l", 0, .num 0, [("a", 4)], true, [none]⟩ =
      [("a", permissionName 4)] ∧
    set_community_names ⟨"c", "l", 0, .num 0, [("a", 4)], true, [none]⟩ [("b", "Notify")] =
      (.error (.gpoManaged "Communities on this system are managed by Group Policy"),
        ⟨"c", "l", 0, .num 0, [("a", 4)], true, [none]⟩, []) := by
  have h1 := C8_gpo_precedence ⟨"c", "l", 0, .num 0, [("a", 4)], true, [none, some ("1", "comm1")]⟩
  have h2 := C8_gpo_precedence ⟨"c", "l", 0, .num 0, [("a", 4)], true, [none]⟩
  exact ⟨(h1.1 rfl ⟨some ("1", "comm1"), by decide, rfl⟩).1,
    h2.2.1 (Or.inr (by decide)) (by decide), h2.2.2 rfl [("b", "Notify")]⟩

/-! ## Claim C2: set_community_names reconciliation -/

theorem containsKey_eq_false_iff {β : Type} (d : List (String × β)) (k : String) :
    containsKey d k = false ↔ k ∉ d.map Prod.fst := by
  unfold containsKey
  constructor
  · intro h hk
    obtain ⟨p, hp, hpk⟩ := List.mem_map.mp hk
    have hany : d.any (fun p => p.1 == k) = true :=
      List.any_eq_true.mpr ⟨p, hp, by simp [hpk]⟩
    rw [h] at hany
    cases hany
  · intro h
    cases hany : d.any (fun p => p.1 == k) with
    | false => rfl
    | true =>
      obtain ⟨p, hp, hpk⟩ := List.any_eq_true.mp hany
      exact absurd (List.mem_map.mpr ⟨p, hp, eq_of_beq hpk⟩) h

theorem lookup_eq_none_of_not_key {β : Type} {d : List (String × β)} {k : String}
    (h : k ∉ d.map Prod.fst) : d.lookup k = none := by
  cases hl : d.lookup k with
  | none => rfl
  | some v => exact absurd (List.mem_map.mpr ⟨(k, v), mem_of_lookup_eq_some hl, rfl⟩) h

theorem containsKey_regSetDword_preserve (l : List (String × Int)) (name : String) (v : Int)
    (k : String) (hk : containsKey l k = false) (hne : name ≠ k) :
    containsKey (regSetDword l name v) k = false := by
  unfold regSetDword
  unfold containsKey at hk ⊢
  rw [List.any_eq_false] at hk
  split
  · rw [List.any_map, List.any_eq_false]
    intro p hp
    simp only [Function.comp]
    split
    · exact fun hb => hne (eq_of_beq hb)
    · exact hk p hp
  · rw [List.any_append, List.any_eq_false.mpr hk, Bool.false_or, List.any_eq_false]
    intro p hp
    rw [List.mem_singleton] at hp
    subst hp
    exact fun hb => hne (eq_of_beq hb)

theorem containsKey_regDeleteValue_self (l : List (String × Int)) (k : String) :
    containsKey (regDeleteValue l k) k = false := by
  unfold regDeleteValue containsKey
  rw [List.any_eq_false]
  intro p hp
  have h2 := (List.mem_filter.mp hp).2
  rw [bne_iff_ne] at h2
  exact fun hb => h2 (eq_of_beq hb)

theorem containsKey_regDeleteValue_preserve (l : List (String × Int)) (name k : String)
    (hk : containsKey l k = false) : containsKey (regDeleteValue l name) k = false := by
  unfold regDeleteValue containsKey at *
  rw [List.any_eq_false] at hk ⊢
  exact fun p hp => hk p (List.mem_of_mem_filter hp)

theorem mem_regSetDword_self (l : List (String × Int)) (k : String) (v : Int) :
    (k, v) ∈ regSetDword l k v := by
  unfold regSetDword
  split
  · rename_i h
    obtain ⟨p, hp, hpk⟩ := List.any_eq_true.mp h
    exact List.mem_map.mpr ⟨p, hp, by rw [if_pos hpk]⟩
  · exact List.mem_append.mpr (Or.inr (List.mem_singleton.mpr rfl))

theorem mem_regSetDword_preserve (l : List (String × Int)) (name k : String) (v w : Int)
    (hmem : (k, v) ∈ l) (hne : name ≠ k) : (k, v) ∈ regSetDword l name w := by
  unfold regSetDword
  split
  · exact List.mem_map.mpr ⟨(k, v), hmem, if_neg (fun hb => hne (eq_of_beq hb).symm)⟩
  · exact List.mem_append.mpr (Or.inl hmem)

theorem updateExisting_absent (values : List (String × Int)) (k : String)
    (hkv : containsKey values k = false) :
    ∀ (current : List (String × String)) (l : List (String × Int)),
      containsKey l k = false →
      containsKey (updateExisting values current l).1 k = false := by
  intro current
  induction current with
  | nil => intro l h; exact h
  | cons c cs ih =>
    intro l h
    obtain ⟨cn, cp⟩ := c
    simp only [updateExisting]
    split
    · rename_i vd hcl
      have hcnk : cn ≠ k := by
        intro he
        subst he
        exact absurd (List.mem_map.mpr ⟨(cn, vd), mem_of_lookup_eq_some hcl, rfl⟩)
          ((containsKey_eq_false_iff _ _).mp hkv)
      split
      · exact ih _ (containsKey_regSetDword_preserve l cn vd k h hcnk)
      · exact ih l h
    · exact ih _ (containsKey_regDeleteValue_preserve l cn k h)

theorem updateExisting_deletes (values : List (String × Int)) (k : String)
    (hkv : containsKey values k = false) :
    ∀ (current : List (String × String)) (l : List (String × Int)),
      k ∈ current.map Prod.fst →
      containsKey (updateExisting values current l).1 k = false := by
  intro current
  induction current with
  | nil => intro l h; cases h
  | cons c cs ih =>
    intro l hk
    obtain ⟨cn, cp⟩ := c
    simp only [updateExisting]
    split
    · rename_i vd hcl
      have hcnk : cn ≠ k := by
        intro he
        subst he
        exact absurd (List.mem_map.mpr ⟨(cn, vd), mem_of_lookup_eq_some hcl, rfl⟩)
          ((containsKey_eq_false_iff _ _).mp hkv)
      have hkcs : k ∈ cs.map Prod.fst := by
        rw [List.map_cons, List.mem_cons] at hk
        rcases hk with h | h
        · exact absurd h.symm hcnk
        · exact h
      split
      · exact ih _ hkcs
      · exact ih l hkcs
    · rename_i hcl
      by_cases hck : cn = k
      · subst hck
        exact updateExisting_absent values cn hkv cs _ (containsKey_regDeleteValue_self l cn)
      · have hkcs : k ∈ cs.map Prod.fst := by
          rw [List.map_cons, List.mem_cons] at hk
          rcases hk with h | h
          · exact absurd h.symm hck
          · exact h
        exact ih _ hkcs

theorem createNew_absent (current : List (String × String)) (k : String) :
    ∀ (vs : List (String × Int)) (l : List (String × Int)),
      containsKey l k = false → containsKey vs k = false →
      containsKey (createNew current vs l).1 k = false := by
  intro vs
  induction vs with
  | nil => intro l h _; exact h
  | cons q qs ih =>
    intro l h hv
    obtain ⟨vn, vd⟩ := q
    have hvn : vn ≠ k := by
      intro he
      subst he
      unfold containsKey at hv
      simp at hv
    have hqs : containsKey qs k = false := by
      unfold containsKey at hv ⊢
      simp only [List.any_cons] at hv
      exact (Bool.or_eq_false_iff.mp hv).2
    simp only [createNew]
    split
    · exact ih l h hqs
    · exact ih _ (containsKey_regSetDword_preserve l vn vd k h hvn) hqs

theorem createNew_mem_preserve (current : List (String × String)) (k : String) (v : Int) :
    ∀ (vs : List (String × Int)) (l : List (String × Int)),
      (k, v) ∈ l → (∀ q ∈ vs, q.1 ≠ k) →
      (k, v) ∈ (createNew current vs l).1 := by
  intro vs
  induction vs with
  | nil => intro l h _; exact h
  | cons q qs ih =>
    intro l h hq
    obtain ⟨vn, vd⟩ := q
    simp only [createNew]
    split
    · exact ih l h (fun q2 hq2 => hq q2 (List.mem_cons_of_mem _ hq2))
    · exact ih _
        (mem_regSetDword_preserve l vn k v vd h (hq (vn, vd) (List.mem_cons_self _ _)))
        (fun q2 hq2 => hq q2 (List.mem_cons_of_mem _ hq2))

theorem createNew_mem (current : List (String × String)) (k : String) (v : Int) :
    ∀ (vs : List (String × Int)) (l : List (String × Int)),
      (k, v) ∈ vs → (vs.map Prod.fst).Nodup → containsKey current k = false →
      (k, v) ∈ (createNew current vs l).1 := by
  intro vs
  induction vs with
  | nil => intro l h _ _; cases h
  | cons q qs ih =>
    intro l hm hnd hc
    obtain ⟨vn, vd⟩ := q
    rw [List.map_cons, List.nodup_cons] at hnd
    simp only [createNew]
    rcases List.mem_cons.mp hm with h | h
    · have hvk : vn = k := (congrArg Prod.fst h).symm
      subst hvk
      have hvv : vd = v := (congrArg Prod.snd h).symm
      subst hvv
      rw [if_neg (by rw [hc]; exact Bool.false_ne_true)]
      exact createNew_mem_preserve current vn vd qs _ (mem_regSetDword_self l vn vd)
        (fun q2 hq2 => fun he => hnd.1 (he ▸ List.mem_map.mpr ⟨q2, hq2, rfl⟩))
    · split
      · exact ih l h hnd.2 hc
      · exact ih _ h hnd.2 hc

theorem get_community_names_local (st : RegState) (hg : st.gpoExists = false)
    (hnd : (st.localComms.map Prod.fst).Nodup) :
    get_community_names st = st.localComms.map (fun p => (p.1, permissionName p.2)) := by
  have h0 : get_community_names st = st.localComms.foldl localInsertEntry [] := by
    unfold get_community_names
    rw [hg]
    simp
  rw [h0, localFold_append st.localComms [] (fun p _ => rfl) hnd]
  rfl

theorem normalizeValidate_ok (communities : List (String × String))
    (hvalid : ∀ kv ∈ communities, kv.2 ∈ get_permission_types) :
    normalizeValidate communities =
      .ok (communities,
        communities.map (fun kv => (kv.1, (PERMISSION_TYPES.lookup kv.2).getD 0))) := by
  induction communities with
  | nil => rfl
  | cons p ps ih =>
    obtain ⟨pk, pv⟩ := p
    have hv := hvalid (pk, pv) (List.mem_cons_self _ _)
    simp only at hv
    have hne : (pv == "") = false := by
      have hnv : pv ≠ "" := by fin_cases hv <;> decide
      exact beq_eq_false_iff_ne.mpr hnv
    have hsome : ∃ n, PERMISSION_TYPES.lookup pv = some n := by
      fin_cases hv <;> exact ⟨_, rfl⟩
    obtain ⟨n, hn⟩ := hsome
    simp only [normalizeValidate, hne, Bool.false_eq_true, if_false]
    rw [hn, ih (fun kv hkv => hvalid kv (List.mem_cons_of_mem _ hkv))]
    simp [hn]

theorem set_community_names_reconcile (st : RegState)
    (communities communities2 : List (String × String)) (values : List (String × Int))
    (hg : st.gpoExists = false)
    (hne : dictEqB communities (get_community_names st) = false)
    (hnv : normalizeValidate communities = .ok (communities2, values)) :
    set_community_names st communities =
      (.ok (!failedCommunities communities2 (get_community_names
          { st with localComms := (createNew (get_community_names st) values
            (updateExisting values (get_community_names st) st.localComms).1).1 })),
        { st with localComms := (createNew (get_community_names st) values
            (updateExisting values (get_community_names st) st.localComms).1).1 },
        (updateExisting values (get_community_names st) st.localComms).2 ++
          (createNew (get_community_names st) values
            (updateExisting values (get_community_names st) st.localComms).1).2) := by
  simp only [set_community_names, hg, hne, hnv, Bool.false_eq_true, if_false]

/-- Claim C2: with no GPO community key and only valid permission names,
`set_community_names` reconciles the store: every community in the current
table that is absent from the request is deleted, and every requested
community absent from the current table is created with its permission's
integer value; in particular `{"a": "Read Only", "b": "Notify"}` followed by
`{"a": "Read Only"}` leaves the table equal to `{"a": "Read Only"}` with
`"b"` absent, and the second call returns `True`. -/
theorem C2_reconcile_delete_create :
    (∀ (st : RegState) (communities : List (String × String)),
      st.gpoExists = false →
      (∀ kv ∈ communities, kv.2 ∈ get_permission_types) →
      (communities.map Prod.fst).Nodup →
      (st.localComms.map Prod.fst).Nodup →
      ∃ b st1 ops, set_community_names st communities = (.ok b, st1, ops) ∧
        (∀ k ∈ st.localComms.map Prod.fst, k ∉ communities.map Prod.fst →
          k ∉ st1.localComms.map Prod.fst) ∧
        (∀ kv ∈ communities, kv.1 ∉ st.localComms.map Prod.fst → ∀ n,
          PERMISSION_TYPES.lookup kv.2 = some n → (kv.1, n) ∈ st1.localComms)) ∧
    (set_community_names
        (set_community_names ⟨"c", "l", 0, .num 0, [], false, []⟩
          [("a", "Read Only"), ("b", "Notify")]).2.1
        [("a", "Read Only")] =
      (.ok true, ⟨"c", "l", 0, .num 0, [("a", 4)], false, []⟩,
        [RegOp.setDword COMMUNITIES_KEY "a" 4, RegOp.deleteValue COMMUNITIES_KEY "b"]) ∧
      get_community_names ⟨"c", "l", 0, .num 0, [("a", 4)], false, []⟩ =
        [("a", "Read Only")] ∧
      containsKey ((⟨"c", "l", 0, .num 0, [("a", 4)], false, []⟩ : RegState).localComms) "b" =
        false) := by
  constructor
  · intro st communities hg hvalid hndc hndl
    have hcur := get_community_names_local st hg hndl
    have hkeys : (get_community_names st).map Prod.fst = st.localComms.map Prod.fst := by
      rw [hcur, List.map_map]
      rfl
    by_cases hdq : dictEqB communities (get_community_names st) = true
    · refine ⟨true, st, [], ?_, ?_, ?_⟩
      · simp only [set_community_names, hg, hdq, Bool.false_eq_true, if_false, if_true]
      · intro k hkl hknc
        obtain ⟨p, hp, hpk⟩ := List.mem_map.mp (hkeys ▸ hkl)
        have hall := (Bool.and_eq_true _ _).mp hdq |>.2
        rw [List.all_eq_true] at hall
        have hlk := hall p hp
        rw [beq_iff_eq] at hlk
        exact absurd (List.mem_map.mpr ⟨(p.1, p.2), mem_of_lookup_eq_some hlk, hpk⟩) hknc
      · intro kv hkv hknl n hn
        have hall := (Bool.and_eq_true _ _).mp hdq |>.1
        rw [List.all_eq_true] at hall
        have hlk := hall kv hkv
        rw [beq_iff_eq] at hlk
        exact absurd (hkeys ▸ List.mem_map.mpr ⟨(kv.1, kv.2), mem_of_lookup_eq_some hlk, rfl⟩)
          hknl
    · have hdqf : dictEqB communities (get_community_names st) = false :=
        Bool.not_eq_true _ ▸ Bool.of_not_eq_true hdq
      have hnv := normalizeValidate_ok communities hvalid
      have hform := set_community_names_reconcile st communities communities
        (communities.map (fun kv => (kv.1, (PERMISSION_TYPES.lookup kv.2).getD 0))) hg hdqf hnv
      refine ⟨_, _, _, hform, ?_, ?_⟩
      · intro k hkl hknc
        rw [← containsKey_eq_false_iff]
        have hvk : containsKey
            (communities.map (fun kv => (kv.1, (PERMISSION_TYPES.lookup kv.2).getD 0))) k
            = false := by
          rw [containsKey_eq_false_iff, List.map_map]
          exact hknc
        exact createNew_absent (get_community_names st) k _ _
          (updateExisting_deletes _ k hvk (get_community_names st) st.localComms
            (hkeys ▸ hkl))
          hvk
      · intro kv hkv hknl n hn
        have hmemv : (kv.1, n) ∈
            communities.map (fun kv => (kv.1, (PERMISSION_TYPES.lookup kv.2).getD 0)) := by
          refine List.mem_map.mpr ⟨kv, hkv, ?_⟩
          rw [hn]
          rfl
        have hndv : ((communities.map
            (fun kv => (kv.1, (PERMISSION_TYPES.lookup kv.2).getD 0))).map Prod.fst).Nodup := by
          rw [List.map_map]
          exact hndc
        have hcc : containsKey (get_community_names st) kv.1 = false := by
          rw [containsKey_eq_false_iff, hkeys]
          exact hknl
        exact createNew_mem (get_community_names st) kv.1 n _ _ hmemv hndv hcc
  · exact ⟨by decide, by decide, by decide⟩

/-- Witness for C2: the reconciliation properties applied to a concrete state
holding only community `"x"` with a request for `"a"`: `"x"` is deleted and
`"a"` created with value `4`. -/
theorem C2_reconcile_delete_create_witness :
    ∃ b st1 ops,
      set_community_names ⟨"c", "l", 0, .num 0, [("x", 8)], false, []⟩ [("a", "Read Only")] =
        (.ok b, st1, ops) ∧
      (∀ k ∈ ((⟨"c", "l", 0, .num 0, [("x", 8)], false, []⟩ : RegState).localComms).map
          Prod.fst, k ∉ ([("a", "Read Only")].map Prod.fst) →
        k ∉ st1.localComms.map Prod.fst) ∧
      (∀ kv ∈ [("a", "Read Only")],
        kv.1 ∉ ((⟨"c", "l", 0, .num 0, [("x", 8)], false, []⟩ : RegState).localComms).map
          Prod.fst → ∀ n,
        PERMISSION_TYPES.lookup kv.2 = some n → (kv.1, n) ∈ st1.localComms) :=
  C2_reconcile_delete_create.1 ⟨"c", "l", 0, .num 0, [("x", 8)], false, []⟩
    [("a", "Read Only")] rfl (by decide) (by decide) (by decide)
